import Mathlib

/-!
Verification of the mutual-fund scraping/normalization pipeline
(`webscraping.py`, `datapreprocess.py`) against its specification.

Strings are modelled as `List Char` (Python `str`); numbers as `ℚ`
(Python `float`, overflow-free in the modelled ranges); the pandas
`np.nan` / missing sentinel as `Option ℚ` (`none` = not available) or,
for heterogeneous DataFrame cells, as a dedicated `Cell` type.
Outbound HTTP is modelled by passing the would-be response content in
as an explicit argument (a "world" value); a failed fetch is `none` /
a failure constructor, matching `fetch_page` returning `None` on any
request error or non-2xx status.
-/

/-- A pandas DataFrame cell as it can appear in the preprocessing stage:
a float NaN, an empty string, a Python `None`, the `'N/A'` marker string,
a number, or some other string. -/
inductive Cell where
  | nanV : Cell
  | emptyS : Cell
  | noneV : Cell
  | na : Cell
  | num : ℚ → Cell
  | txt : List Char → Cell
deriving DecidableEq, Repr

/-- One row of the raw fund DataFrame (the columns read or written by
`handle_missing_values` and `validate_data` in datapreprocess.py). -/
structure Row where
  name : List Char
  type_ : List Char
  aum : Cell
  nav : Cell
  minimum_investment : Cell
  minimum_sip_investment : Cell
  equity_aum : Cell
  debt_per : Cell
  equity_per : Cell
  one_year_return : Cell
  three_year_return : Cell
  five_year_return : Cell
  exit_load : Cell
  rating : Cell
  average_maturity : Cell
  yield_to_maturity : Cell
deriving DecidableEq, Repr

/-- `df[col].replace([np.nan, '', None], 'N/A')` applied to one cell. -/
def replMissing (c : Cell) : Cell :=
  if c = Cell.nanV ∨ c = Cell.emptyS ∨ c = Cell.noneV then Cell.na else c

/-- datapreprocess.py `handle_missing_values`: replace missing values with
`'N/A'` in the four columns `exit_load, rating, average_maturity,
yield_to_maturity`, then force `average_maturity` and `yield_to_maturity`
to `'N/A'` on every row whose `type` is `'Equity'`
(`df.loc[df['type'] == 'Equity', [...]] = 'N/A'`). -/
def handle_missing_values (df : List Row) : List Row :=
  df.map (fun r =>
    let r1 := { r with
      exit_load := replMissing r.exit_load
      rating := replMissing r.rating
      average_maturity := replMissing r.average_maturity
      yield_to_maturity := replMissing r.yield_to_maturity }
    if r1.type_ = "Equity".toList then
      { r1 with average_maturity := Cell.na, yield_to_maturity := Cell.na }
    else r1)

/-- A validation finding logged by `validate_data` (each is only ever a
`logger.warning`, never a rejection). -/
inductive Finding where
  | negativeCol : List Char → Finding
  | equityAumExceedsAum : Finding
  | unrealisticReturns : List Char → Finding
  | inconsistentAllocation : Finding
  | duplicateNames : Finding
deriving DecidableEq, Repr

/-- Is the cell a number (Python `isinstance(x, (int, float))`, with the
modelled NaN kept as a separate non-numeric constructor; note Python's
`nan < 0` is `False`, so classifying NaN as non-numeric here gives the
same outcome for every comparison `validate_data` performs). -/
def cellNum : Cell → Option ℚ
  | Cell.num q => some q
  | _ => none

/-- Cell holds a negative number. -/
def cellNeg (c : Cell) : Bool :=
  match cellNum c with
  | some q => decide (q < 0)
  | none => false

/-- Cell holds a number outside [-100, 100]. -/
def cellUnreal (c : Cell) : Bool :=
  match cellNum c with
  | some q => decide (q > 100 ∨ q < -100)
  | none => false

/-- `df['name'].duplicated().any()`: some name occurs at least twice. -/
def hasDupNames : List (List Char) → Bool
  | [] => false
  | n :: rest => n ∈ rest || hasDupNames rest

/-- datapreprocess.py `validate_data`: computes every advisory finding in
source order and returns the DataFrame itself untouched, paired with the
findings it would log.  (In the source the findings go to `logger.warning`
and the function body never assigns into `df`; the returned table is the
argument object.) -/
def validate_data (df : List Row) : List Row × List Finding :=
  let negW := fun (colName : List Char) (proj : Row → Cell) =>
    if df.any (fun r => cellNeg (proj r)) then [Finding.negativeCol colName] else []
  let w1 := negW "aum".toList Row.aum ++ negW "nav".toList Row.nav ++
    negW "minimum_investment".toList Row.minimum_investment ++
    negW "minimum_sip_investment".toList Row.minimum_sip_investment ++
    negW "equity_aum".toList Row.equity_aum
  let w2 :=
    if df.any (fun r =>
        match cellNum r.equity_aum, cellNum r.aum with
        | some e, some a => decide (a < e)
        | _, _ => false) then [Finding.equityAumExceedsAum] else []
  let retW := fun (colName : List Char) (proj : Row → Cell) =>
    if df.any (fun r => cellUnreal (proj r)) then [Finding.unrealisticReturns colName] else []
  let w3 := retW "one_year_return".toList Row.one_year_return ++
    retW "three_year_return".toList Row.three_year_return ++
    retW "five_year_return".toList Row.five_year_return
  let w4 :=
    if df.any (fun r =>
        match cellNum r.debt_per, cellNum r.equity_per with
        | some d, some e => decide (d + e < 95 ∨ d + e > 105)
        | _, _ => false) then [Finding.inconsistentAllocation] else []
  let w5 := if hasDupNames (df.map Row.name) then [Finding.duplicateNames] else []
  (df, w1 ++ w2 ++ w3 ++ w4 ++ w5)

/-- C5: for every row of the fund table with `type == 'Equity'`, the
output of `handle_missing_values` has `average_maturity` and
`yield_to_maturity` equal to the `'N/A'` marker, regardless of the input
values of those two columns. -/
theorem equity_maturity_forced_na (df : List Row) (row : Row)
    (hmem : row ∈ handle_missing_values df)
    (htype : row.type_ = "Equity".toList) :
    row.average_maturity = Cell.na ∧ row.yield_to_maturity = Cell.na := by
  unfold handle_missing_values at hmem
  rcases List.mem_map.mp hmem with ⟨r, _, hr⟩
  subst hr
  by_cases h : r.type_ = "Equity".toList
  · rw [if_pos h]
    exact ⟨rfl, rfl⟩
  · exfalso
    apply h
    rw [if_neg h] at htype
    exact htype

/-- A sample table: one Equity row with numeric maturity/yield survives
normalization with both fields forced to `'N/A'`. -/
def sampleRowEquity : Row :=
  { name := "Fund A".toList, type_ := "Equity".toList,
    aum := Cell.num 100, nav := Cell.num 25,
    minimum_investment := Cell.num 500, minimum_sip_investment := Cell.num 100,
    equity_aum := Cell.num 90, debt_per := Cell.num 5, equity_per := Cell.num 95,
    one_year_return := Cell.num 12, three_year_return := Cell.num 14,
    five_year_return := Cell.num 11, exit_load := Cell.num 1,
    rating := Cell.num 4, average_maturity := Cell.num 3,
    yield_to_maturity := Cell.num 7 }

theorem equity_maturity_forced_na_witness :
    ∃ row ∈ handle_missing_values [sampleRowEquity],
      row.type_ = "Equity".toList ∧
      row.average_maturity = Cell.na ∧ row.yield_to_maturity = Cell.na := by
  refine ⟨{ sampleRowEquity with average_maturity := Cell.na, yield_to_maturity := Cell.na },
    by decide, by decide, ?_⟩
  exact equity_maturity_forced_na [sampleRowEquity] _ (by decide) (by decide)

/-- C8: `validate_data` never mutates the table — the returned table is
the input, row for row and cell for cell; findings (such as a negative
`aum`) are emitted only as warnings alongside, and no row is rejected.
In particular a row with `aum = -5` still has `aum = -5` afterwards, and
its presence makes the negative-`aum` warning appear in the findings. -/
theorem validate_data_no_mutation (df : List Row) :
    (validate_data df).1 = df ∧
    ((∃ r ∈ df, cellNeg r.aum) →
      Finding.negativeCol "aum".toList ∈ (validate_data df).2) := by
  refine ⟨rfl, fun ⟨r, hr, hneg⟩ => ?_⟩
  unfold validate_data
  simp only [List.mem_append]
  left; left; left; left; left
  rw [if_pos (List.any_eq_true.mpr ⟨r, hr, hneg⟩)]
  simp

/-- A row carrying the spec example's negative AUM. -/
def negAumRow : Row := { sampleRowEquity with aum := Cell.num (-5) }

/-- Witness for C8 at the spec's own example: a table holding a row with
`aum = -5` round-trips unchanged and yields the negative-`aum` warning. -/
theorem validate_data_no_mutation_witness :
    (validate_data [negAumRow]).1 = [negAumRow] ∧
    Finding.negativeCol "aum".toList ∈ (validate_data [negAumRow]).2 :=
  ⟨(validate_data_no_mutation [negAumRow]).1,
   (validate_data_no_mutation [negAumRow]).2 ⟨negAumRow, by decide, by decide⟩⟩

/-!
## Portfolio stats (`extract_portfolio_stats`, webscraping.py lines 295-400)

The Groww stats endpoint's JSON body is modelled by `StatsResp`: each
`data.get(key, np.nan)` becomes an `Option ℚ` field, each
`asset_allocation.get(key, 0)` is read through `Option.getD 0`, and the
`equity_sector_per` object becomes an association list in insertion
order (Python dicts preserve it).  One network attempt either yields a
body or fails with one of the caught exceptions
(`ValueError / KeyError / requests.RequestException`), modelled as
`Option StatsResp`.
-/

/-- JSON body of a successful portfolio-stats response. -/
structure StatsResp where
  pe : Option ℚ
  pb : Option ℚ
  debt_per : Option ℚ
  equity_per : Option ℚ
  average_maturity : Option ℚ
  yield_to_maturity : Option ℚ
  asset_equity : Option ℚ
  asset_debt : Option ℚ
  asset_cash : Option ℚ
  aum : Option ℚ
  equity_sector_per : List (List Char × ℚ)
deriving DecidableEq, Repr

/-- The `asset_allocation` dict built by `extract_portfolio_stats`
(`equity/debt/cash` are floats on success but `np.nan` in the failure
record, hence `Option ℚ` throughout). -/
structure AssetAlloc where
  equity : Option ℚ
  debt : Option ℚ
  cash : Option ℚ
  total_aum : Option ℚ
deriving DecidableEq, Repr

/-- The dict returned by `extract_portfolio_stats`. -/
structure StatsRecord where
  pe : Option ℚ
  pb : Option ℚ
  debt_per : Option ℚ
  equity_per : Option ℚ
  average_maturity : Option ℚ
  yield_to_maturity : Option ℚ
  asset_allocation : AssetAlloc
  sector_allocation : List (List Char × ℚ)
  equity_aum : Option ℚ
deriving DecidableEq, Repr

/-- Stable insert for descending order on the percentage component:
`x` goes in front of the first element it is `≥`, hence after all
earlier elements with the same percentage. -/
def insertDesc (x : List Char × ℚ) : List (List Char × ℚ) → List (List Char × ℚ)
  | [] => [x]
  | y :: rest => if y.2 ≤ x.2 then x :: y :: rest else y :: insertDesc x rest

/-- Stable descending sort by percentage — the semantics of Python's
stable `sorted(..., key=lambda x: x['percentage'], reverse=True)`. -/
def sortDesc : List (List Char × ℚ) → List (List Char × ℚ)
  | [] => []
  | x :: rest => insertDesc x (sortDesc rest)

/-- The all-unavailable record returned both when no scheme code is
given (lines 299-309) and after the retries are exhausted
(lines 390-400) — the two dict literals in the source are identical. -/
def failStats : StatsRecord :=
  { pe := none, pb := none, debt_per := none, equity_per := none,
    average_maturity := none, yield_to_maturity := none,
    asset_allocation := { equity := none, debt := none, cash := none, total_aum := none },
    sector_allocation := [], equity_aum := none }

/-- The body of the `try` block on a successful response (lines 321-381):
field extraction, the type-conditional overrides
(`Commodities` / non-`Hybrid` / `Hybrid` renormalization), the asset
allocation, the top-4 sector allocation, and the derived equity AUM. -/
def computeStats (data : StatsResp) (fund_type : List Char) : StatsRecord :=
  let pe0 := data.pe
  let pb0 := data.pb
  let debt0 := data.debt_per
  let equity0 := data.equity_per
  let am0 := data.average_maturity
  let ytm0 := data.yield_to_maturity
  let s1 :=
    if fund_type = "Commodities".toList then
      (none, none, some (0 : ℚ), some (0 : ℚ), am0, ytm0)
    else (pe0, pb0, debt0, equity0, am0, ytm0)
  let s2 :=
    if fund_type ≠ "Hybrid".toList then
      (s1.1, s1.2.1, s1.2.2.1, s1.2.2.2.1, none, none)
    else s1
  let s3 :=
    if fund_type = "Hybrid".toList then
      let debt := s2.2.2.1.getD 0
      let equity := s2.2.2.2.1.getD 0
      let total := debt + equity
      if 0 < total then
        (s2.1, s2.2.1, some (debt / total * 100), some (equity / total * 100),
          s2.2.2.2.2.1, s2.2.2.2.2.2)
      else (s2.1, s2.2.1, none, none, s2.2.2.2.2.1, s2.2.2.2.2.2)
    else s2
  let asset_allocation : AssetAlloc :=
    { equity := some (data.asset_equity.getD 0),
      debt := some (data.asset_debt.getD 0),
      cash := some (data.asset_cash.getD 0),
      total_aum := data.aum }
  let sector_allocation := (sortDesc data.equity_sector_per).take 4
  let equity_aum :=
    match data.aum with
    | none => none
    | some a => some (data.asset_equity.getD 0 / 100 * a)
  { pe := s3.1, pb := s3.2.1, debt_per := s3.2.2.1, equity_per := s3.2.2.2.1,
    average_maturity := s3.2.2.2.2.1, yield_to_maturity := s3.2.2.2.2.2,
    asset_allocation := asset_allocation,
    sector_allocation := sector_allocation,
    equity_aum := equity_aum }

/-- The retry loop `for attempt in range(retries)` with one outcome per
attempt: the first successful attempt returns the computed record; a
failed attempt retries while attempts remain (`attempt < retries - 1`)
and otherwise returns `failStats`.  `none` as the overall result is the
Python fall-through when `retries = 0` (the loop body never runs and the
function implicitly returns `None`). -/
def attemptLoop (fund_type : List Char) : List (Option StatsResp) → Option StatsRecord
  | [] => none
  | some data :: _ => some (computeStats data fund_type)
  | none :: rest => if rest = [] then some failStats else attemptLoop fund_type rest

/-- webscraping.py `extract_portfolio_stats(scheme_code, fund_type,
retries, retry_delay)`: missing scheme code short-circuits to the
all-unavailable record; otherwise the retry loop runs over the
per-attempt outcomes (one entry per `range(retries)` index). -/
def extract_portfolio_stats (scheme_code : Option Nat) (fund_type : List Char)
    (attempts : List (Option StatsResp)) : Option StatsRecord :=
  match scheme_code with
  | none => some failStats
  | some _ => attemptLoop fund_type attempts

/-- Inserting permutes: `insertDesc x l` is `x :: l` up to order. -/
theorem insertDesc_perm (x : List Char × ℚ) (l : List (List Char × ℚ)) :
    (insertDesc x l).Perm (x :: l) := by
  induction l with
  | nil => exact List.Perm.refl _
  | cons y rest ih =>
    unfold insertDesc
    by_cases h : y.2 ≤ x.2
    · rw [if_pos h]
    · rw [if_neg h]
      exact ((ih.cons y).trans (List.Perm.swap x y rest))

/-- `sortDesc` permutes its input. -/
theorem sortDesc_perm (l : List (List Char × ℚ)) : (sortDesc l).Perm l := by
  induction l with
  | nil => exact List.Perm.refl _
  | cons x rest ih =>
    exact (insertDesc_perm x (sortDesc rest)).trans (ih.cons x)

/-- Inserting preserves descending-sortedness (percentages non-increasing). -/
theorem insertDesc_sorted (x : List Char × ℚ) (l : List (List Char × ℚ))
    (hl : l.Pairwise (fun a b => b.2 ≤ a.2)) :
    (insertDesc x l).Pairwise (fun a b => b.2 ≤ a.2) := by
  induction l with
  | nil => simp [insertDesc]
  | cons y rest ih =>
    rw [List.pairwise_cons] at hl
    unfold insertDesc
    by_cases h : y.2 ≤ x.2
    · rw [if_pos h]
      refine List.pairwise_cons.mpr ⟨?_, List.pairwise_cons.mpr hl⟩
      intro z hz
      rcases List.mem_cons.mp hz with rfl | hz
      · exact h
      · exact le_trans (hl.1 z hz) h
    · rw [if_neg h]
      refine List.pairwise_cons.mpr ⟨?_, ih hl.2⟩
      intro z hz
      have hz' := (insertDesc_perm x rest).mem_iff.mp hz
      rcases List.mem_cons.mp hz' with rfl | hz'
      · exact le_of_not_le h
      · exact hl.1 z hz'

/-- `sortDesc` output is descending (percentages non-increasing). -/
theorem sortDesc_sorted (l : List (List Char × ℚ)) :
    (sortDesc l).Pairwise (fun a b => b.2 ≤ a.2) := by
  induction l with
  | nil => simp [sortDesc]
  | cons x rest ih => exact insertDesc_sorted x (sortDesc rest) ih

/-- C6 (amended): for every portfolio-stats response whose sector map has
more than 4 entries, the stored `sector_allocation` consists of exactly
the 4 entries with the largest percentages, sorted non-increasing: it has
length 4, is sorted descending, and together with the dropped entries it
is a permutation of the full map, every dropped percentage being ≤ every
kept one.  (The source never filters by `percentage > 0`: the original
claim's parenthetical is refuted separately.) -/
theorem sector_allocation_top4 (data : StatsResp) (fund_type : List Char)
    (h4 : 4 < data.equity_sector_per.length) :
    (computeStats data fund_type).sector_allocation.length = 4 ∧
    (computeStats data fund_type).sector_allocation.Pairwise (fun a b => b.2 ≤ a.2) ∧
    ∃ rest,
      ((computeStats data fund_type).sector_allocation ++ rest).Perm data.equity_sector_per ∧
      ∀ x ∈ (computeStats data fund_type).sector_allocation, ∀ y ∈ rest, y.2 ≤ x.2 := by
  have hproj : (computeStats data fund_type).sector_allocation
      = (sortDesc data.equity_sector_per).take 4 := by
    unfold computeStats
    rfl
  have hlen : (sortDesc data.equity_sector_per).length = data.equity_sector_per.length :=
    (sortDesc_perm _).length_eq
  have hsorted := sortDesc_sorted data.equity_sector_per
  have hsplit := List.take_append_drop 4 (sortDesc data.equity_sector_per)
  refine ⟨?_, ?_, (sortDesc data.equity_sector_per).drop 4, ?_, ?_⟩
  · rw [hproj, List.length_take, hlen]
    omega
  · rw [hproj]
    exact hsorted.sublist (List.take_sublist 4 _)
  · rw [hproj, hsplit]
    exact sortDesc_perm _
  · rw [hproj]
    intro x hx y hy
    have := (List.pairwise_append.mp (hsplit ▸ hsorted)).2.2
    exact this x hx y hy

/-- The response used to exhibit a stored sector entry with percentage 0:
six sectors, one of them 0%, one negative. -/
def sectorResp0 : StatsResp :=
  { pe := some 20, pb := some 3, debt_per := some 10, equity_per := some 90,
    average_maturity := none, yield_to_maturity := none,
    asset_equity := some 90, asset_debt := some 5, asset_cash := some 5,
    aum := some 1000,
    equity_sector_per :=
      [("Financial".toList, 3), ("Technology".toList, 2), ("Energy".toList, 1),
       ("Metals".toList, 0), ("Media".toList, -1), ("Others".toList, -2)] }

/-- C6 counterexample: with a 6-entry sector map containing a 0% sector,
the stored top-4 `sector_allocation` contains an entry whose percentage
is 0, refuting "every stored entry has percentage > 0". -/
theorem sector_allocation_zero_entry :
    ("Metals".toList, (0 : ℚ)) ∈
      (computeStats sectorResp0 "Equity".toList).sector_allocation ∧
    ¬ ((0 : ℚ) > 0) := by
  constructor
  · decide
  · exact lt_irrefl 0

/-- C4: for every scheme code and fund type, if all `retries = 3`
attempts fail with a caught request/parse error, `extract_portfolio_stats`
returns (never raises) the record in which every numeric field is the
unavailable sentinel, the asset allocation is all-unavailable, and the
sector list is empty. -/
theorem stats_all_retries_fail (scheme : Nat) (fund_type : List Char)
    (attempts : List (Option StatsResp))
    (hlen : attempts.length = 3)
    (hfail : ∀ a ∈ attempts, a = none) :
    extract_portfolio_stats (some scheme) fund_type attempts =
      some { pe := none, pb := none, debt_per := none, equity_per := none,
             average_maturity := none, yield_to_maturity := none,
             asset_allocation :=
               { equity := none, debt := none, cash := none, total_aum := none },
             sector_allocation := [], equity_aum := none } := by
  rcases attempts with _ | ⟨a, _ | ⟨b, _ | ⟨c, _ | ⟨d, rest⟩⟩⟩⟩ <;> simp_all
  rfl

/-- Witness for C4: scheme 222 of the spec's end-to-end scenario, three
failed attempts, all-unavailable record. -/
theorem stats_all_retries_fail_witness :
    extract_portfolio_stats (some 222) "Equity".toList [none, none, none] =
      some { pe := none, pb := none, debt_per := none, equity_per := none,
             average_maturity := none, yield_to_maturity := none,
             asset_allocation :=
               { equity := none, debt := none, cash := none, total_aum := none },
             sector_allocation := [], equity_aum := none } :=
  stats_all_retries_fail 222 "Equity".toList [none, none, none] (by simp)
    (by intro a ha; simpa using ha)

/-- Helper: on a successful response for a `Hybrid` fund, the stored
`debt_per`/`equity_per` follow the renormalization branch of lines
339-348: rescaled when the raw sum (missing values as 0) is positive,
both unavailable otherwise. -/
theorem computeStats_hybrid_fields (data : StatsResp) :
    (computeStats data "Hybrid".toList).debt_per =
      (if 0 < data.debt_per.getD 0 + data.equity_per.getD 0 then
        some (data.debt_per.getD 0 /
          (data.debt_per.getD 0 + data.equity_per.getD 0) * 100)
      else none) ∧
    (computeStats data "Hybrid".toList).equity_per =
      (if 0 < data.debt_per.getD 0 + data.equity_per.getD 0 then
        some (data.equity_per.getD 0 /
          (data.debt_per.getD 0 + data.equity_per.getD 0) * 100)
      else none) := by
  have hC : ¬ ("Hybrid".toList = "Commodities".toList) := by decide
  have hH : ¬ ("Hybrid".toList ≠ "Hybrid".toList) := fun h => h rfl
  unfold computeStats
  dsimp only
  rw [if_neg hC, if_neg hH, if_pos rfl]
  dsimp only
  by_cases hpos : 0 < data.debt_per.getD 0 + data.equity_per.getD 0
  · rw [if_pos hpos, if_pos hpos, if_pos hpos]
    exact ⟨rfl, rfl⟩
  · rw [if_neg hpos, if_neg hpos, if_neg hpos]
    exact ⟨rfl, rfl⟩

/-- C2: for every Hybrid fund whose raw `debt_per`/`equity_per` (missing
counted as 0) have positive sum, `extract_portfolio_stats` rescales both
so that they sum to exactly 100 and their ratio is preserved; when the
raw sum is not positive, both become the unavailable sentinel. -/
theorem hybrid_renormalization (data : StatsResp)
    (d0 e0 : ℚ) (hd : d0 = data.debt_per.getD 0) (he : e0 = data.equity_per.getD 0) :
    (0 < d0 + e0 →
      (computeStats data "Hybrid".toList).debt_per = some (d0 / (d0 + e0) * 100) ∧
      (computeStats data "Hybrid".toList).equity_per = some (e0 / (d0 + e0) * 100) ∧
      d0 / (d0 + e0) * 100 + e0 / (d0 + e0) * 100 = 100 ∧
      (d0 / (d0 + e0) * 100) * e0 = (e0 / (d0 + e0) * 100) * d0) ∧
    (¬ 0 < d0 + e0 →
      (computeStats data "Hybrid".toList).debt_per = none ∧
      (computeStats data "Hybrid".toList).equity_per = none) := by
  subst hd he
  obtain ⟨hdp, hep⟩ := computeStats_hybrid_fields data
  constructor
  · intro hpos
    have hne : data.debt_per.getD 0 + data.equity_per.getD 0 ≠ 0 := ne_of_gt hpos
    refine ⟨by rw [hdp, if_pos hpos], by rw [hep, if_pos hpos], ?_, ?_⟩
    · field_simp
      ring
    · ring
  · intro hpos
    exact ⟨by rw [hdp, if_neg hpos], by rw [hep, if_neg hpos]⟩

/-- The spec's Hybrid example response: raw `debt_per = 40`,
`equity_per = 40`. -/
def hybridResp40 : StatsResp :=
  { pe := some 15, pb := some 2, debt_per := some 40, equity_per := some 40,
    average_maturity := some 5, yield_to_maturity := some 7,
    asset_equity := some 50, asset_debt := some 45, asset_cash := some 5,
    aum := some 500, equity_sector_per := [] }

/-- Witness for C2 at the spec's example: raw 40/40 (sum 80 > 0) becomes
50/50. -/
theorem hybrid_renormalization_witness :
    (computeStats hybridResp40 "Hybrid".toList).debt_per = some 50 ∧
    (computeStats hybridResp40 "Hybrid".toList).equity_per = some 50 := by
  have h := (hybrid_renormalization hybridResp40 40 40 (by decide) (by decide)).1
    (by norm_num)
  refine ⟨?_, ?_⟩
  · rw [h.1]; norm_num
  · rw [h.2.1]; norm_num

/-!
## Historical NAV (`extract_historical_nav` / `fetch_amfi_nav`,
webscraping.py lines 36-95)

The primary Groww time-series endpoint returns
`data['folio']['data']`, a list of raw `[timestamp_ms, nav]` entries;
an entry that is not a 2-element list, or whose NAV fails `float()`,
is skipped.  A raised `requests.RequestException / ValueError /
KeyError` is the `Except.error` case.  The AMFI bulk feed is a list of
`(scheme code, date, nav)` rows (dates as comparable ordinals after
`pd.to_datetime`); a fetch/parse failure of the feed itself is `none`.
-/

/-- One raw entry of the primary time-series payload. -/
inductive RawNavEntry where
  /-- A 2-element list `[timestamp_ms, nav]`; `nav` is `none` when
  `float(entry[1])` would raise `ValueError`/`TypeError`. -/
  | pair : Int → Option ℚ → RawNavEntry
  /-- Any other shape (`isinstance`/length check fails). -/
  | malformed : RawNavEntry
deriving DecidableEq, Repr

/-- A formatted NAV point (`{'date': ..., 'nav': ...}`); the date is the
UTC day ordinal derived from the source timestamp. -/
structure NavPoint where
  date : Int
  nav : ℚ
deriving DecidableEq, Repr

/-- `datetime.utcfromtimestamp(ms / 1000).strftime('%Y-%m-%d')`,
modelled as the UTC day ordinal (floor division by one day's worth of
milliseconds). -/
def msToDay (ms : Int) : Int := (ms / 1000).fdiv 86400

/-- Lines 73-86: each well-formed entry becomes a `{date, nav}` dict,
malformed or unparseable entries are skipped (`continue`). -/
def formatNavEntry : RawNavEntry → Option NavPoint
  | RawNavEntry.pair ts (some nav) => some { date := msToDay ts, nav := nav }
  | RawNavEntry.pair _ none => none
  | RawNavEntry.malformed => none

/-- One row of the AMFI `NAVAll.txt` bulk feed after CSV/date parsing. -/
structure AmfiRow where
  scheme : Nat
  date : Int
  nav : ℚ
deriving DecidableEq, Repr

/-- Default window of `fetch_amfi_nav` (`'2024-05-05'`/`'2025-05-05'`,
as date ordinals on the same axis as `AmfiRow.date`). -/
def amfiDefaultStart : Int := 20240505
/-- See `amfiDefaultStart`. -/
def amfiDefaultEnd : Int := 20250505

/-- webscraping.py `fetch_amfi_nav(scheme_code, start_date, end_date)`:
filter the bulk feed to the exact scheme code and the `[start, end]`
window and project to `(date, nav)`; any fetch/parse failure of the
feed (`feed = none`) yields `[]`. -/
def fetch_amfi_nav (feed : Option (List AmfiRow)) (scheme_code : Nat)
    (start_date end_date : Int) : List NavPoint :=
  match feed with
  | none => []
  | some rows =>
    (rows.filter (fun r =>
      r.scheme = scheme_code ∧ start_date ≤ r.date ∧ r.date ≤ end_date)).map
      (fun r => { date := r.date, nav := r.nav })

/-- webscraping.py `extract_historical_nav(scheme_code, months=12)`.
The primary response is `Except.error ()` when the request raises one
of the caught exceptions, otherwise the raw entry list.  The returned
`Bool` records whether the AMFI fallback was invoked (the line 95 call
`fetch_amfi_nav(scheme_code)` with the default window).  Missing scheme
code short-circuits to `[]`. -/
def extract_historical_nav (scheme_code : Option Nat)
    (primary : Except Unit (List RawNavEntry))
    (amfiFeed : Option (List AmfiRow)) : List NavPoint × Bool :=
  match scheme_code with
  | none => ([], false)
  | some code =>
    match primary with
    | Except.ok navData =>
      if navData.isEmpty then ([], false)
      else (navData.filterMap formatNavEntry, false)
    | Except.error _ =>
      (fetch_amfi_nav amfiFeed code amfiDefaultStart amfiDefaultEnd, true)

/-- C1 counterexample: a primary call that SUCCEEDS with an empty NAV
list does not invoke the AMFI fallback — the empty list is stored
directly (even though the fallback would have returned data here),
refuting the claim that the bulk-feed fallback is invoked on an empty
primary result. -/
theorem empty_primary_no_fallback :
    extract_historical_nav (some 12345) (Except.ok [])
        (some [{ scheme := 12345, date := 20240601, nav := 25 }]) =
      ([], false) ∧
    fetch_amfi_nav (some [{ scheme := 12345, date := 20240601, nav := 25 }])
        12345 amfiDefaultStart amfiDefaultEnd ≠ [] := by
  exact ⟨rfl, by decide⟩

/-- C1 (amended): the AMFI fallback (same scheme code, default window)
is invoked exactly when the primary time-series call raises a caught
request/parse error; a successful primary call with an empty NAV list
stores the empty list without invoking the fallback.  In both cases the
call returns normally (no unhandled failure). -/
theorem nav_fallback_on_error_only (code : Nat)
    (primary : Except Unit (List RawNavEntry)) (feed : Option (List AmfiRow)) :
    (primary = Except.error () →
      extract_historical_nav (some code) primary feed =
        (fetch_amfi_nav feed code amfiDefaultStart amfiDefaultEnd, true)) ∧
    (primary = Except.ok [] →
      extract_historical_nav (some code) primary feed = ([], false)) := by
  constructor
  · intro h
    subst h
    rfl
  · intro h
    subst h
    rfl

/-- Witness for C1-as-amended at scheme code 12345: the error path
invokes the fallback and stores its (here nonempty) result; the
empty-success path stores `[]`. -/
theorem nav_fallback_on_error_only_witness :
    extract_historical_nav (some 12345) (Except.error ())
        (some [{ scheme := 12345, date := 20240601, nav := 25 }]) =
      ([{ date := 20240601, nav := 25 }], true) ∧
    extract_historical_nav (some 12345) (Except.ok [])
        (some [{ scheme := 12345, date := 20240601, nav := 25 }]) = ([], false) := by
  constructor
  · rw [(nav_fallback_on_error_only 12345 (Except.error ())
      (some [{ scheme := 12345, date := 20240601, nav := 25 }])).1 rfl]
    decide
  · exact (nav_fallback_on_error_only 12345 (Except.ok [])
      (some [{ scheme := 12345, date := 20240601, nav := 25 }])).2 rfl

/-!
## String utilities shared by the scraping functions

`trim` is Python `str.strip()`; `parseFloat?` models `float(text)` on
the decimal forms that occur in the scraped numbers (optional sign,
digits, optional single dot — special forms such as exponents or
`inf`/`nan` are outside the modelled input space and simply fail);
`removeAll pat s` is Python `s.replace(pat, '')`: left-to-right removal
of non-overlapping occurrences.
-/

/-- Python `str.strip()` (default whitespace). -/
def trim (s : List Char) : List Char :=
  ((s.dropWhile Char.isWhitespace).reverse.dropWhile Char.isWhitespace).reverse

/-- Value of a digit string. -/
def digitsVal (s : List Char) : Nat :=
  s.foldl (fun acc c => 10 * acc + (c.toNat - 48)) 0

/-- Unsigned decimal: `digits`, `digits.digits`, `digits.` or `.digits`. -/
def parseUnsigned (s : List Char) : Option ℚ :=
  let intPart := s.takeWhile Char.isDigit
  let rest := s.dropWhile Char.isDigit
  match rest with
  | [] => if intPart = [] then none else some (digitsVal intPart)
  | '.' :: frac =>
    if frac.all Char.isDigit ∧ (intPart ≠ [] ∨ frac ≠ []) then
      some ((digitsVal intPart : ℚ) + (digitsVal frac : ℚ) / ((10 ^ frac.length : Nat) : ℚ))
    else none
  | _ => none

/-- Python `float(text)` on plain decimal forms (see section comment). -/
def parseFloat? (s : List Char) : Option ℚ :=
  match s with
  | '+' :: rest => parseUnsigned rest
  | '-' :: rest => (parseUnsigned rest).map Neg.neg
  | _ => parseUnsigned s

/-- Fuel-driven body of `removeAll` (structural, so that concrete
evaluation reduces in the kernel); `fuel ≥ s.length` is always enough
for a nonempty pattern. -/
def removeAllF (fuel : Nat) (pat : List Char) (s : List Char) : List Char :=
  match fuel, s with
  | 0, s => s
  | _ + 1, [] => []
  | fuel + 1, c :: rest =>
    if pat.isPrefixOf (c :: rest) then removeAllF fuel pat ((c :: rest).drop pat.length)
    else c :: removeAllF fuel pat rest

/-- Python `s.replace(pat, '')` for a nonempty `pat`: remove all
non-overlapping occurrences, scanning left to right.  (The source only
ever calls `replace` with nonempty patterns; for `pat = []` this
returns `s` whereas Python would raise on `split('')` — irrelevant
here.) -/
def removeAll (pat s : List Char) : List Char :=
  if pat = [] then s else removeAllF s.length pat s

/-!
## Top holdings (`extract_top_holdings`, webscraping.py lines 97-138)

The fund page's holdings table is modelled by `HTable`: the optional
`tbody` row list and the flat `find_all('tr')` row list (header
included).  A row is a list of cells; a cell carries its stripped-to-be
text and, for the first column, the optional `div.pc543Links` child's
text.  The page argument is two-level: `none` = `fetch_page` failed,
`some none` = page fetched but no `table.holdings101Table`.
-/

/-- One `td` cell of the holdings table. -/
structure HCell where
  text : List Char
  pcLinkText : Option (List Char)
deriving DecidableEq, Repr

/-- Out-of-range default (never selected under the length-4 guard). -/
def defaultHCell : HCell := { text := [], pcLinkText := none }

/-- The holdings table: optional `tbody` rows and the flat row list. -/
structure HTable where
  tbody : Option (List (List HCell))
  allRows : List (List HCell)
deriving DecidableEq, Repr

/-- Line 117: `table.find('tbody').find_all('tr')[:5] if table.find('tbody')
else table.find_all('tr')[1:6]`. -/
def selectRows (t : HTable) : List (List HCell) :=
  match t.tbody with
  | some trs => trs.take 5
  | none => (t.allRows.drop 1).take 5

/-- A stored holding (`{'company': ..., 'percentage': ...}`). -/
structure Holding where
  company : List Char
  percentage : ℚ
deriving DecidableEq, Repr

/-- Lines 119-131: a row with at least 4 cells yields a holding; the
company comes from the first cell's `pc543Links` child if present, else
the cell itself; the percentage is the 4th cell's stripped text with all
`'%'` removed, parsed by `float`, with `ValueError` mapped to `0.0`.
Rows with fewer than 4 cells are skipped. -/
def rowToHolding (cols : List HCell) : Option Holding :=
  if 4 ≤ cols.length then
    let c0 := cols.getD 0 defaultHCell
    let company := trim (c0.pcLinkText.getD c0.text)
    let ptext := (trim (cols.getD 3 defaultHCell).text).filter (fun c => c ≠ '%')
    some { company := company, percentage := (parseFloat? ptext).getD 0 }
  else none

/-- webscraping.py `extract_top_holdings(scheme_code, fund_link)`. -/
def extract_top_holdings (scheme_code : Option Nat) (fund_link : List Char)
    (page : Option (Option HTable)) : List Holding :=
  match scheme_code with
  | none => []
  | some _ =>
    if fund_link = [] then []
    else
      match page with
      | none => []
      | some none => []
      | some (some t) => (selectRows t).filterMap rowToHolding

/-- C10: a holdings-table row with the expected column count whose
percentage cell fails numeric parsing is still appended as a holding
with `percentage = 0.0` — neither skipped nor marked unavailable — so
the stored Holding list can contain 0-percentage entries. -/
theorem bad_percentage_becomes_zero (code : Nat) (link : List Char)
    (t : HTable) (row : List HCell)
    (hlink : link ≠ [])
    (hrow : row ∈ selectRows t)
    (hlen : 4 ≤ row.length)
    (hparse : parseFloat?
      ((trim (row.getD 3 defaultHCell).text).filter (fun c => c ≠ '%')) = none) :
    { company := trim ((row.getD 0 defaultHCell).pcLinkText.getD
        (row.getD 0 defaultHCell).text),
      percentage := 0 } ∈ extract_top_holdings (some code) link (some (some t)) := by
  unfold extract_top_holdings
  rw [if_neg hlink]
  refine List.mem_filterMap.mpr ⟨row, hrow, ?_⟩
  unfold rowToHolding
  rw [if_pos hlen]
  dsimp only
  rw [hparse]
  rfl

/-- A concrete holdings page: one 4-cell row whose percentage text
`'N.A.'` does not parse. -/
def badPctTable : HTable :=
  { tbody := some [[
      { text := "Reliance Industries".toList, pcLinkText := some "Reliance Industries".toList },
      { text := "Energy".toList, pcLinkText := none },
      { text := "Equity".toList, pcLinkText := none },
      { text := "N.A.".toList, pcLinkText := none }]],
    allRows := [] }

/-- Witness for C10: the unparseable row is stored with percentage 0. -/
theorem bad_percentage_becomes_zero_witness :
    { company := "Reliance Industries".toList, percentage := (0 : ℚ) } ∈
      extract_top_holdings (some 111) "https://groww.in/mutual-funds/fund-a".toList
        (some (some badPctTable)) := by
  have h := bad_percentage_becomes_zero 111 "https://groww.in/mutual-funds/fund-a".toList
    badPctTable
    [{ text := "Reliance Industries".toList, pcLinkText := some "Reliance Industries".toList },
     { text := "Energy".toList, pcLinkText := none },
     { text := "Equity".toList, pcLinkText := none },
     { text := "N.A.".toList, pcLinkText := none }]
    (by decide) (by decide) (by decide) (by decide)
  simpa using h

/-- Witness for C6-as-amended at the 6-entry sector map. -/
theorem sector_allocation_top4_witness :
    (computeStats sectorResp0 "Equity".toList).sector_allocation.length = 4 ∧
    (computeStats sectorResp0 "Equity".toList).sector_allocation.Pairwise
      (fun a b => b.2 ≤ a.2) ∧
    ∃ rest,
      ((computeStats sectorResp0 "Equity".toList).sector_allocation ++ rest).Perm
        sectorResp0.equity_sector_per ∧
      ∀ x ∈ (computeStats sectorResp0 "Equity".toList).sector_allocation,
        ∀ y ∈ rest, y.2 ≤ x.2 :=
  sector_allocation_top4 sectorResp0 "Equity".toList (by decide)

/-!
## Detail-page numbers (`extract_detailed_fund_data`, webscraping.py
lines 186-281)

The label-adjacency DOM scan is cut at its natural seam: for each
labelled field the page is represented by the list of stripped value
texts whose preceding sibling label node matched that field's label
('Fund size', 'NAV', 'Min. for 1st investment', 'Min. for SIP', the
ratings cell class), in document order — the source walks these
candidates, keeps the first one that parses (`break`), and skips
parse failures (`continue`).  `body_texts` is the list of stripped
`p.bodyLarge` texts scanned for exit load and expense ratio. -/

/-- `text.replace('₹', '').replace(',', '').replace('Cr', '')`. -/
def cleanAum (t : List Char) : List Char :=
  removeAll "Cr".toList (removeAll ",".toList (removeAll "₹".toList t))

/-- `text.replace('₹', '').replace(',', '')`. -/
def cleanMoney (t : List Char) : List Char :=
  removeAll ",".toList (removeAll "₹".toList t)

/-- First candidate text that parses after cleaning
(`for elem: try: x = float(clean(text)); break; except ValueError: continue`). -/
def scanNum (clean : List Char → List Char) : List (List Char) → Option ℚ
  | [] => none
  | t :: rest =>
    match parseFloat? (clean t) with
    | some v => some v
    | none => scanNum clean rest

/-- Python `pat in text` (substring test). -/
def hasSub (pat : List Char) : List Char → Bool
  | [] => pat.isEmpty
  | c :: rest => pat.isPrefixOf (c :: rest) || hasSub pat rest

/-- Leftmost match of the regex `(\d+\.\d+)%` anchored at the start of
the given text, as its numeric value. -/
def pctAt (s : List Char) : Option ℚ :=
  let d1 := s.takeWhile Char.isDigit
  let r1 := s.dropWhile Char.isDigit
  match r1 with
  | '.' :: r2 =>
    let d2 := r2.takeWhile Char.isDigit
    let r3 := r2.dropWhile Char.isDigit
    match r3 with
    | '%' :: _ =>
      if d1 ≠ [] ∧ d2 ≠ [] then
        some ((digitsVal d1 : ℚ) + (digitsVal d2 : ℚ) / ((10 ^ d2.length : Nat) : ℚ))
      else none
    | _ => none
  | _ => none

/-- `re.search(r'(\d+\.\d+)%', text)`: leftmost match value. -/
def findPct : List Char → Option ℚ
  | [] => none
  | c :: rest =>
    match pctAt (c :: rest) with
    | some v => some v
    | none => findPct rest

/-- Lines 253-267: scan `p.bodyLarge` texts; on the first containing
'Exit load', return 0 for the no-load markers, else the first
`(\d+\.\d+)%` value; keep scanning when neither applies. -/
def scanExit : List (List Char) → Option ℚ
  | [] => none
  | t :: rest =>
    if hasSub "Exit load".toList t then
      if hasSub "No exit load".toList t ∨ hasSub "0%".toList t then some 0
      else
        match findPct t with
        | some v => some v
        | none => scanExit rest
    else scanExit rest

/-- Lines 269-279: same scan for 'Expense ratio' (no zero marker). -/
def scanExpense : List (List Char) → Option ℚ
  | [] => none
  | t :: rest =>
    if hasSub "Expense ratio".toList t then
      match findPct t with
      | some v => some v
      | none => scanExpense rest
    else scanExpense rest

/-- Candidate texts of one fund detail page (see section comment). -/
structure DetailPage where
  aum_cands : List (List Char)
  nav_cands : List (List Char)
  min_cands : List (List Char)
  sip_cands : List (List Char)
  rating_cands : List (List Char)
  body_texts : List (List Char)
deriving DecidableEq, Repr

/-- The 7-element list returned by `extract_detailed_fund_data`
(`[aum, nav, minimum, minimum_sip, rating, expense_ratio, exit_load]`). -/
structure FundNumbers where
  aum : Option ℚ
  nav : Option ℚ
  minimum : Option ℚ
  minimum_sip : Option ℚ
  rating : Option ℚ
  expense_ratio : Option ℚ
  exit_load : Option ℚ
deriving DecidableEq, Repr

/-- webscraping.py `extract_detailed_fund_data(url)`: all-NaN on fetch
failure; otherwise per-label first-parse extraction, with the line
237-238 fallback `if np.isnan(minimum): minimum = minimum_sip`. -/
def extract_detailed_fund_data (page : Option DetailPage) : FundNumbers :=
  match page with
  | none =>
    { aum := none, nav := none, minimum := none, minimum_sip := none,
      rating := none, expense_ratio := none, exit_load := none }
  | some p =>
    let aum := scanNum cleanAum p.aum_cands
    let nav := scanNum cleanMoney p.nav_cands
    let minimum0 := scanNum cleanMoney p.min_cands
    let minimum_sip := scanNum cleanMoney p.sip_cands
    let minimum :=
      match minimum0 with
      | none => minimum_sip
      | some v => some v
    let rating := scanNum (fun t => t) p.rating_cands
    let exit_load := scanExit p.body_texts
    let expense_ratio := scanExpense p.body_texts
    { aum := aum, nav := nav, minimum := minimum, minimum_sip := minimum_sip,
      rating := rating, expense_ratio := expense_ratio, exit_load := exit_load }

/-- `scanNum` yields the sentinel exactly when no candidate parses. -/
theorem scanNum_none_iff (clean : List Char → List Char) (cands : List (List Char)) :
    scanNum clean cands = none ↔ ∀ t ∈ cands, parseFloat? (clean t) = none := by
  induction cands with
  | nil => simp [scanNum]
  | cons t rest ih =>
    unfold scanNum
    cases h : parseFloat? (clean t) with
    | some v => simp [h]
    | none => simpa [h] using ih

/-- A `scanNum` value always comes from one of its own candidates. -/
theorem scanNum_some (clean : List Char → List Char) (cands : List (List Char))
    (v : ℚ) (h : scanNum clean cands = some v) :
    ∃ t ∈ cands, parseFloat? (clean t) = some v := by
  induction cands with
  | nil => simp [scanNum] at h
  | cons t rest ih =>
    unfold scanNum at h
    cases hp : parseFloat? (clean t) with
    | some w =>
      rw [hp] at h
      exact ⟨t, List.mem_cons_self t rest, hp.trans h⟩
    | none =>
      rw [hp] at h
      obtain ⟨u, hu, hpu⟩ := ih h
      exact ⟨u, List.mem_cons_of_mem t hu, hpu⟩

/-- `scanExit` yields the sentinel exactly when no 'Exit load' text
produces a value: every text containing 'Exit load' has neither
no-load marker nor a `(\\d+\\.\\d+)%` match. -/
theorem scanExit_none_iff (texts : List (List Char)) :
    scanExit texts = none ↔
      ∀ t ∈ texts, hasSub "Exit load".toList t = true →
        (hasSub "No exit load".toList t = false ∧ hasSub "0%".toList t = false ∧
          findPct t = none) := by
  induction texts with
  | nil => simp [scanExit]
  | cons t rest ih =>
    unfold scanExit
    by_cases hl : hasSub "Exit load".toList t = true
    · rw [if_pos hl]
      by_cases hm : (hasSub "No exit load".toList t = true ∨ hasSub "0%".toList t = true)
      · rw [if_pos hm]
        constructor
        · intro h
          exact absurd h (by simp)
        · intro h
          obtain ⟨h1, h2, _⟩ := h t (List.mem_cons_self t rest) hl
          rcases hm with hm | hm
          · rw [hm] at h1; cases h1
          · rw [hm] at h2; cases h2
      · rw [if_neg hm]
        have hA : hasSub "No exit load".toList t = false := by
          cases hA : hasSub "No exit load".toList t
          · rfl
          · exact absurd (Or.inl hA) hm
        have hB : hasSub "0%".toList t = false := by
          cases hB : hasSub "0%".toList t
          · rfl
          · exact absurd (Or.inr hB) hm
        cases hf : findPct t with
        | some w =>
          simp only [hf]
          constructor
          · intro h
            exact absurd h (by simp)
          · intro h
            obtain ⟨_, _, h3⟩ := h t (List.mem_cons_self t rest) hl
            rw [hf] at h3
            cases h3
        | none =>
          simp only [hf]
          rw [ih, List.forall_mem_cons]
          exact ⟨fun h => ⟨fun _ => ⟨hA, hB, hf⟩, h⟩, fun h => h.2⟩
    · rw [if_neg hl]
      rw [ih, List.forall_mem_cons]
      exact ⟨fun h => ⟨fun hc => absurd hc hl, h⟩, fun h => h.2⟩

/-- A `scanExit` value comes from a text containing 'Exit load', either
as `0` via a no-load marker or as that text's leftmost percentage
match. -/
theorem scanExit_some_from_label (texts : List (List Char)) (v : ℚ)
    (h : scanExit texts = some v) :
    ∃ t ∈ texts, hasSub "Exit load".toList t = true ∧
      (((hasSub "No exit load".toList t = true ∨ hasSub "0%".toList t = true) ∧ v = 0) ∨
        findPct t = some v) := by
  induction texts with
  | nil => simp [scanExit] at h
  | cons t rest ih =>
    unfold scanExit at h
    by_cases hl : hasSub "Exit load".toList t = true
    · rw [if_pos hl] at h
      by_cases hm : (hasSub "No exit load".toList t = true ∨ hasSub "0%".toList t = true)
      · rw [if_pos hm] at h
        exact ⟨t, List.mem_cons_self t rest, hl,
          Or.inl ⟨hm, (Option.some.inj h).symm⟩⟩
      · rw [if_neg hm] at h
        cases hf : findPct t with
        | some w =>
          simp only [hf] at h
          refine ⟨t, List.mem_cons_self t rest, hl, Or.inr ?_⟩
          rw [hf, h]
        | none =>
          simp only [hf] at h
          obtain ⟨u, hu, h1, h2⟩ := ih h
          exact ⟨u, List.mem_cons_of_mem t hu, h1, h2⟩
    · rw [if_neg hl] at h
      obtain ⟨u, hu, h1, h2⟩ := ih h
      exact ⟨u, List.mem_cons_of_mem t hu, h1, h2⟩

/-- `scanExpense` yields the sentinel exactly when no 'Expense ratio'
text has a `(\\d+\\.\\d+)%` match. -/
theorem scanExpense_none_iff (texts : List (List Char)) :
    scanExpense texts = none ↔
      ∀ t ∈ texts, hasSub "Expense ratio".toList t = true → findPct t = none := by
  induction texts with
  | nil => simp [scanExpense]
  | cons t rest ih =>
    unfold scanExpense
    by_cases hl : hasSub "Expense ratio".toList t = true
    · rw [if_pos hl]
      cases hf : findPct t with
      | some w =>
        simp only [hf]
        constructor
        · intro h
          exact absurd h (by simp)
        · intro h
          have h3 := h t (List.mem_cons_self t rest) hl
          rw [hf] at h3
          cases h3
      | none =>
        simp only [hf]
        rw [ih, List.forall_mem_cons]
        exact ⟨fun h => ⟨fun _ => hf, h⟩, fun h => h.2⟩
    · rw [if_neg hl]
      rw [ih, List.forall_mem_cons]
      exact ⟨fun h => ⟨fun hc => absurd hc hl, h⟩, fun h => h.2⟩

/-- A `scanExpense` value is the leftmost percentage match of a text
containing 'Expense ratio'. -/
theorem scanExpense_some_from_label (texts : List (List Char)) (v : ℚ)
    (h : scanExpense texts = some v) :
    ∃ t ∈ texts, hasSub "Expense ratio".toList t = true ∧ findPct t = some v := by
  induction texts with
  | nil => simp [scanExpense] at h
  | cons t rest ih =>
    unfold scanExpense at h
    by_cases hl : hasSub "Expense ratio".toList t = true
    · rw [if_pos hl] at h
      cases hf : findPct t with
      | some w =>
        simp only [hf] at h
        refine ⟨t, List.mem_cons_self t rest, hl, ?_⟩
        rw [hf, h]
      | none =>
        simp only [hf] at h
        obtain ⟨u, hu, h1, h2⟩ := ih h
        exact ⟨u, List.mem_cons_of_mem t hu, h1, h2⟩
    · rw [if_neg hl] at h
      obtain ⟨u, hu, h1, h2⟩ := ih h
      exact ⟨u, List.mem_cons_of_mem t hu, h1, h2⟩

/-- C3 (amended): each numeric field except `minimum_investment` is
independently optional and never taken from another field.  For `aum`,
`nav`, `minimum_sip_investment` and `rating`: the field is the
unavailable sentinel exactly when no candidate text of its own label
parses, and any value it holds was parsed from one of its own label's
candidates (so it is never silently zero).  For `exit_load`: the
sentinel exactly when no 'Exit load' body text yields a value (no-load
marker or percentage match), and any value comes from such a text (0
via the marker, else that text's leftmost percentage match); for
`expense_ratio` likewise with 'Expense ratio' and its percentage match.
`minimum_investment` is the one exception: it takes its own label's
first parsed value when there is one, and otherwise falls back to the
already-extracted `minimum_sip_investment` value (lines 237-238). -/
theorem fund_fields_independent (p : DetailPage) :
    ((extract_detailed_fund_data (some p)).aum = none ↔
      ∀ t ∈ p.aum_cands, parseFloat? (cleanAum t) = none) ∧
    (∀ v, (extract_detailed_fund_data (some p)).aum = some v →
      ∃ t ∈ p.aum_cands, parseFloat? (cleanAum t) = some v) ∧
    ((extract_detailed_fund_data (some p)).nav = none ↔
      ∀ t ∈ p.nav_cands, parseFloat? (cleanMoney t) = none) ∧
    (∀ v, (extract_detailed_fund_data (some p)).nav = some v →
      ∃ t ∈ p.nav_cands, parseFloat? (cleanMoney t) = some v) ∧
    ((extract_detailed_fund_data (some p)).minimum_sip = none ↔
      ∀ t ∈ p.sip_cands, parseFloat? (cleanMoney t) = none) ∧
    (∀ v, (extract_detailed_fund_data (some p)).minimum_sip = some v →
      ∃ t ∈ p.sip_cands, parseFloat? (cleanMoney t) = some v) ∧
    ((extract_detailed_fund_data (some p)).rating = none ↔
      ∀ t ∈ p.rating_cands, parseFloat? t = none) ∧
    (∀ v, (extract_detailed_fund_data (some p)).rating = some v →
      ∃ t ∈ p.rating_cands, parseFloat? t = some v) ∧
    ((∃ v, scanNum cleanMoney p.min_cands = some v) →
      (extract_detailed_fund_data (some p)).minimum = scanNum cleanMoney p.min_cands) ∧
    (scanNum cleanMoney p.min_cands = none →
      (extract_detailed_fund_data (some p)).minimum =
        (extract_detailed_fund_data (some p)).minimum_sip) ∧
    ((extract_detailed_fund_data (some p)).exit_load = none ↔
      ∀ t ∈ p.body_texts, hasSub "Exit load".toList t = true →
        (hasSub "No exit load".toList t = false ∧ hasSub "0%".toList t = false ∧
          findPct t = none)) ∧
    (∀ v, (extract_detailed_fund_data (some p)).exit_load = some v →
      ∃ t ∈ p.body_texts, hasSub "Exit load".toList t = true ∧
        (((hasSub "No exit load".toList t = true ∨ hasSub "0%".toList t = true) ∧ v = 0) ∨
          findPct t = some v)) ∧
    ((extract_detailed_fund_data (some p)).expense_ratio = none ↔
      ∀ t ∈ p.body_texts, hasSub "Expense ratio".toList t = true → findPct t = none) ∧
    (∀ v, (extract_detailed_fund_data (some p)).expense_ratio = some v →
      ∃ t ∈ p.body_texts, hasSub "Expense ratio".toList t = true ∧
        findPct t = some v) := by
  have haum : (extract_detailed_fund_data (some p)).aum = scanNum cleanAum p.aum_cands := rfl
  have hnav : (extract_detailed_fund_data (some p)).nav = scanNum cleanMoney p.nav_cands := rfl
  have hsip : (extract_detailed_fund_data (some p)).minimum_sip
      = scanNum cleanMoney p.sip_cands := rfl
  have hrat : (extract_detailed_fund_data (some p)).rating
      = scanNum (fun t => t) p.rating_cands := rfl
  have hexit : (extract_detailed_fund_data (some p)).exit_load = scanExit p.body_texts := rfl
  have hexp : (extract_detailed_fund_data (some p)).expense_ratio
      = scanExpense p.body_texts := rfl
  have hmin : (extract_detailed_fund_data (some p)).minimum =
      (match scanNum cleanMoney p.min_cands with
       | none => scanNum cleanMoney p.sip_cands
       | some v => some v) := rfl
  refine ⟨?_, ?_, ?_, ?_, ?_, ?_, ?_, ?_, ?_, ?_, ?_, ?_, ?_, ?_⟩
  · rw [haum]; exact scanNum_none_iff cleanAum p.aum_cands
  · intro v hv; exact scanNum_some cleanAum p.aum_cands v (haum ▸ hv)
  · rw [hnav]; exact scanNum_none_iff cleanMoney p.nav_cands
  · intro v hv; exact scanNum_some cleanMoney p.nav_cands v (hnav ▸ hv)
  · rw [hsip]; exact scanNum_none_iff cleanMoney p.sip_cands
  · intro v hv; exact scanNum_some cleanMoney p.sip_cands v (hsip ▸ hv)
  · rw [hrat]
    simpa using scanNum_none_iff (fun t => t) p.rating_cands
  · intro v hv
    simpa using scanNum_some (fun t => t) p.rating_cands v (hrat ▸ hv)
  · rintro ⟨v, hv⟩
    rw [hmin, hv]
  · intro hnone
    rw [hmin, hnone, hsip]
  · rw [hexit]; exact scanExit_none_iff p.body_texts
  · intro v hv; exact scanExit_some_from_label p.body_texts v (hexit ▸ hv)
  · rw [hexp]; exact scanExpense_none_iff p.body_texts
  · intro v hv; exact scanExpense_some_from_label p.body_texts v (hexp ▸ hv)

/-- A detail page where the 'Min. for 1st investment' label is absent
but 'Min. for SIP' parses to 500. -/
def minAbsentPage : DetailPage :=
  { aum_cands := ["₹1,000Cr".toList], nav_cands := ["₹25.79".toList],
    min_cands := [], sip_cands := ["₹500".toList],
    rating_cands := ["4".toList], body_texts := [] }

/-- C3 counterexample: with its own label absent, `minimum_investment`
is not left at the unavailable sentinel — it is filled in from
`minimum_sip_investment`'s value (lines 237-238), refuting "never filled
in from another field's value". -/
theorem minimum_filled_from_sip :
    minAbsentPage.min_cands = [] ∧
    (extract_detailed_fund_data (some minAbsentPage)).minimum = some 500 ∧
    (extract_detailed_fund_data (some minAbsentPage)).minimum_sip = some 500 := by
  refine ⟨rfl, ?_, ?_⟩ <;> decide

/-- A detail page with exit-load and expense-ratio body texts. -/
def exitPage : DetailPage :=
  { aum_cands := [], nav_cands := [], min_cands := [], sip_cands := [],
    rating_cands := [],
    body_texts := ["Exit load of 1.25% if redeemed within 1 year".toList,
      "Expense ratio: 0.64%".toList] }

/-- The value `1.25` in the exact un-normalized form `pctAt` builds it
(kept this way so the witness below is definitional — core `Rat`
addition normalizes through `Nat.gcd`, which the kernel cannot
unfold). -/
def exitLoadVal : ℚ :=
  (digitsVal "1".toList : ℚ) +
    (digitsVal "25".toList : ℚ) / ((10 ^ "25".toList.length : Nat) : ℚ)

/-- The value `0.64` in the exact un-normalized form `pctAt` builds it. -/
def expenseVal : ℚ :=
  (digitsVal "0".toList : ℚ) +
    (digitsVal "64".toList : ℚ) / ((10 ^ "64".toList.length : Nat) : ℚ)

/-- Witness for C3-as-amended: on `minAbsentPage`, `aum` is parsed from
its own candidate and the minimum falls back to the SIP value; on
`exitPage`, the stored exit load 1.25% and expense ratio 0.64% each
come from their own labelled body text. -/
theorem fund_fields_independent_witness :
    (∃ t ∈ minAbsentPage.aum_cands, parseFloat? (cleanAum t) = some 1000) ∧
    (extract_detailed_fund_data (some minAbsentPage)).minimum =
      (extract_detailed_fund_data (some minAbsentPage)).minimum_sip ∧
    (∃ t ∈ exitPage.body_texts, hasSub "Exit load".toList t = true ∧
      (((hasSub "No exit load".toList t = true ∨ hasSub "0%".toList t = true) ∧
          exitLoadVal = 0) ∨
        findPct t = some exitLoadVal)) ∧
    (∃ t ∈ exitPage.body_texts, hasSub "Expense ratio".toList t = true ∧
      findPct t = some expenseVal) :=
  ⟨(fund_fields_independent minAbsentPage).2.1 1000 (by decide),
   (fund_fields_independent minAbsentPage).2.2.2.2.2.2.2.2.2.1 (by decide),
   (fund_fields_independent exitPage).2.2.2.2.2.2.2.2.2.2.2.1 exitLoadVal rfl,
   (fund_fields_independent exitPage).2.2.2.2.2.2.2.2.2.2.2.2.2 expenseVal rfl⟩

/-!
## Listing discovery and deduplication (`extract_fund_overview`,
`normalize_link`, `main`, webscraping.py lines 140-184, 419-449)

`fetch_page` returning `None` (network error or non-2xx status) and a
parsed page are the two `PageOutcome` cases.  A fund card is its
stripped-to-be name text plus the optional enclosing `a.pos-rel.f22Link`
parent carrying the risk/type texts, the return texts and the `href`.
-/

/-- The enclosing anchor of a fund card. -/
structure CardParent where
  riskTypeTexts : List (List Char)
  returnTexts : List (List Char)
  href : List Char
deriving DecidableEq, Repr

/-- One fund card (`div.contentPrimary...bodyBaseHeavy`). -/
structure RawCard where
  nameText : List Char
  parent : Option CardParent
deriving DecidableEq, Repr

/-- One listing entry produced by `extract_fund_overview`. -/
structure Fund where
  name : List Char
  risk : List Char
  type_ : List Char
  returns : List (List Char)
  link : List Char
deriving DecidableEq, Repr

/-- Result of fetching one listing page. -/
inductive PageOutcome where
  | fetchFail : PageOutcome
  | ok : List RawCard → PageOutcome
deriving DecidableEq, Repr

/-- Lines 153-181: per-card extraction — skip cards without the parent
anchor; risk/type from the first two secondary texts (else `""`);
returns from the first three return texts padded with `"NA"`; relative
`href`s prefixed with the site origin; keep the card only when both the
name and the link are nonempty. -/
def parseCard (c : RawCard) : Option Fund :=
  let name := trim c.nameText
  match c.parent with
  | none => none
  | some par =>
    let risk := match par.riskTypeTexts.get? 0 with | some t => trim t | none => []
    let type_ := match par.riskTypeTexts.get? 1 with | some t => trim t | none => []
    let returns0 := (par.returnTexts.take 3).map trim
    let returns := returns0 ++ List.replicate (3 - returns0.length) "NA".toList
    let link :=
      if par.href ≠ [] ∧ ¬ ("http".toList.isPrefixOf par.href) then
        "https://groww.in".toList ++ par.href
      else par.href
    if name ≠ [] ∧ link ≠ [] then
      some { name := name, risk := risk, type_ := type_, returns := returns, link := link }
    else none

/-- webscraping.py `extract_fund_overview(page_no)`: empty on fetch
failure; otherwise the parsed cards (an empty card list also gives `[]`,
line 148-150). -/
def extract_fund_overview : PageOutcome → List Fund
  | PageOutcome.fetchFail => []
  | PageOutcome.ok cards => cards.filterMap parseCard

/-- Remainder after the first left-to-right occurrence of `sep`, if any. -/
def dropThroughFirst (sep : List Char) : List Char → Option (List Char)
  | [] => none
  | c :: rest =>
    if sep.isPrefixOf (c :: rest) then some ((c :: rest).drop sep.length)
    else dropThroughFirst sep rest

/-- Fuel-driven body of `afterLast` (`fuel ≥ s.length` always suffices:
each consumed occurrence of a nonempty `sep` shortens the string). -/
def afterLastF (fuel : Nat) (sep : List Char) (s : List Char) : List Char :=
  match fuel with
  | 0 => s
  | fuel + 1 =>
    match dropThroughFirst sep s with
    | none => s
    | some r => afterLastF fuel sep r

/-- Python `s.split(sep)[-1]` for nonempty `sep`: the text after the
last of the non-overlapping, left-to-right occurrences of `sep`
(`s` itself when `sep` does not occur). -/
def afterLast (sep s : List Char) : List Char := afterLastF s.length sep s

/-- Python `s.split('-')`. -/
def splitOnDash (s : List Char) : List (List Char) :=
  s.foldr
    (fun c acc =>
      if c = '-' then [] :: acc
      else
        match acc with
        | [] => [[c]]
        | g :: gs => (c :: g) :: gs)
    [[]]

/-- `'-'.join(filter(None, s.split('-')))`. -/
def joinClean (s : List Char) : List Char :=
  List.intercalate ['-'] ((splitOnDash s).filter (fun t => t ≠ []))

/-- The cosmetic suffixes stripped by `normalize_link` (line 422), in
application order. -/
def suffixTokens : List (List Char) :=
  ["-fund".toList, "-direct".toList, "-growth".toList, "-plan".toList, "-scheme".toList]

/-- The sequential `slug = slug.replace(suffix, '')` loop over `pats`. -/
def seqRemove (pats : List (List Char)) (s : List Char) : List Char :=
  pats.foldl (fun acc p => removeAll p acc) s

/-- webscraping.py `normalize_link(link)`:
`link.split('mutual-funds/')[-1].split('?')[0]`, then the suffix
replacements, then `'-'.join(filter(None, slug.split('-')))`. -/
def normalize_link (link : List Char) : List Char :=
  joinClean (seqRemove suffixTokens
    (List.takeWhile (fun c => c ≠ '?') (afterLast "mutual-funds/".toList link)))

/-- The identity key of main's `seen` set (line 441):
`(fund['name'].strip(), normalize_link(fund['link']))`. -/
def fundKey (f : Fund) : List Char × List Char := (trim f.name, normalize_link f.link)

/-- One step of main's dedup loop (lines 440-446): skip when the quota
is reached or the key was seen, else record the key and append. -/
def addFund (maxFunds : Nat) (st : List (List Char × List Char) × List Fund)
    (f : Fund) : List (List Char × List Char) × List Fund :=
  if maxFunds ≤ st.2.length then st
  else if fundKey f ∈ st.1 then st
  else (fundKey f :: st.1, st.2 ++ [f])

/-- Main's dedup accumulation applied to a stream of listing entries
(the concatenation, in discovery order, of the per-page card parses). -/
def dedupeCards (maxFunds : Nat) (cards : List Fund) : List Fund :=
  (cards.foldl (addFund maxFunds) ([], [])).2

/-- Main's page loop (lines 432-449): starting from the current
seen-set/accumulator state, process pages until the quota is reached or
a page yields no funds (`if not funds_data: break`). -/
def discoverLoop (maxFunds : Nat) :
    List PageOutcome → List (List Char × List Char) × List Fund → List Fund
  | [], st => st.2
  | p :: rest, st =>
    if maxFunds ≤ st.2.length then st.2
    else if extract_fund_overview p = [] then st.2
    else discoverLoop maxFunds rest ((extract_fund_overview p).foldl (addFund maxFunds) st)

/-- Discovery from the initial empty state. -/
def discover (maxFunds : Nat) (pages : List PageOutcome) : List Fund :=
  discoverLoop maxFunds pages ([], [])

/-- C9: a failed listing-page fetch makes `extract_fund_overview`
return `[]`, and the discovery loop then terminates exactly as on a
genuine end-of-listing page (a fetched page with zero cards): from any
state, discovery over `pre ++ [failed page] ++ anything` equals
discovery over `pre ++ [empty page] ++ anything else` — the caller
cannot distinguish the two cases and keeps only the funds accumulated
so far. -/
theorem failed_page_ends_discovery (maxFunds : Nat)
    (pre rest rest' : List PageOutcome)
    (st : List (List Char × List Char) × List Fund) :
    extract_fund_overview PageOutcome.fetchFail = [] ∧
    discoverLoop maxFunds (pre ++ PageOutcome.fetchFail :: rest) st =
      discoverLoop maxFunds (pre ++ PageOutcome.ok [] :: rest') st := by
  refine ⟨rfl, ?_⟩
  induction pre generalizing st with
  | nil =>
    simp only [List.nil_append]
    unfold discoverLoop
    by_cases h : maxFunds ≤ st.2.length
    · rw [if_pos h, if_pos h]
    · rw [if_neg h, if_neg h]
      rfl
  | cons p ps ih =>
    simp only [List.cons_append]
    unfold discoverLoop
    by_cases h : maxFunds ≤ st.2.length
    · rw [if_pos h, if_pos h]
    · rw [if_neg h, if_neg h]
      by_cases hf : extract_fund_overview p = []
      · rw [if_pos hf, if_pos hf]
      · rw [if_neg hf, if_neg hf]
        exact ih _

/-!
## Properties of `removeAll` needed for the deduplication claim

All five cosmetic suffixes start with `'-'` and contain no further
`'-'`; a trailing block of suffix tokens therefore cannot take part in
any occurrence of a pattern that straddles the block boundary, which
makes removal distribute over that boundary.
-/

/-- `removeAllF` on the empty string. -/
theorem removeAllF_nil (p : List Char) (f : Nat) : removeAllF f p [] = [] := by
  cases f <;> rfl

/-- Fuel irrelevance for `removeAllF` with a nonempty pattern. -/
theorem removeAllF_fuel (p : List Char) (hp : p ≠ []) :
    ∀ (n : Nat) (s : List Char), s.length ≤ n → ∀ (f₁ f₂ : Nat),
      s.length ≤ f₁ → s.length ≤ f₂ → removeAllF f₁ p s = removeAllF f₂ p s := by
  have hplen : 1 ≤ p.length := List.length_pos.mpr hp
  intro n
  induction n with
  | zero =>
    intro s hs f₁ f₂ _ _
    have : s = [] := List.eq_nil_of_length_eq_zero (Nat.le_zero.mp hs)
    subst this
    rw [removeAllF_nil, removeAllF_nil]
  | succ n ih =>
    intro s hs f₁ f₂ h₁ h₂
    cases s with
    | nil => rw [removeAllF_nil, removeAllF_nil]
    | cons c rest =>
      simp only [List.length_cons] at hs h₁ h₂
      cases f₁ with
      | zero => omega
      | succ g₁ =>
        cases f₂ with
        | zero => omega
        | succ g₂ =>
          show (if p.isPrefixOf (c :: rest) then
              removeAllF g₁ p ((c :: rest).drop p.length)
            else c :: removeAllF g₁ p rest) =
            (if p.isPrefixOf (c :: rest) then
              removeAllF g₂ p ((c :: rest).drop p.length)
            else c :: removeAllF g₂ p rest)
          have hdl : ((c :: rest).drop p.length).length = rest.length + 1 - p.length := by
            simp [List.length_drop]
          by_cases hpre : p.isPrefixOf (c :: rest)
          · rw [if_pos hpre, if_pos hpre]
            exact ih _ (by rw [hdl]; omega) g₁ g₂ (by rw [hdl]; omega) (by rw [hdl]; omega)
          · rw [if_neg hpre, if_neg hpre]
            rw [ih rest (by omega) g₁ g₂ (by omega) (by omega)]

/-- `removeAll` on `[]`. -/
theorem removeAll_nil (p : List Char) : removeAll p [] = [] := by
  unfold removeAll
  split
  · rfl
  · rfl

/-- One-step unfolding of `removeAll` for a nonempty pattern. -/
theorem removeAll_cons (p : List Char) (hp : p ≠ []) (c : Char) (rest : List Char) :
    removeAll p (c :: rest) =
      if p.isPrefixOf (c :: rest) then removeAll p ((c :: rest).drop p.length)
      else c :: removeAll p rest := by
  have hplen : 1 ≤ p.length := List.length_pos.mpr hp
  unfold removeAll
  rw [if_neg hp, if_neg hp, if_neg hp]
  show (if p.isPrefixOf (c :: rest) then
      removeAllF rest.length p ((c :: rest).drop p.length)
    else c :: removeAllF rest.length p rest) = _
  have hdl : ((c :: rest).drop p.length).length = rest.length + 1 - p.length := by
    simp [List.length_drop]
  by_cases hpre : p.isPrefixOf (c :: rest)
  · rw [if_pos hpre, if_pos hpre]
    exact removeAllF_fuel p hp ((c :: rest).drop p.length).length _ (le_refl _) _ _
      (by rw [hdl]; omega) (le_refl _)
  · rw [if_neg hpre, if_neg hpre]

/-- A prefix of `l ++ b` no longer than `l` is a prefix of `l`. -/
theorem prefix_of_append_of_le (p l b : List Char)
    (h : p <+: l ++ b) (hle : p.length ≤ l.length) : p <+: l := by
  rw [List.prefix_iff_eq_take] at h
  rw [List.take_append_eq_append_take] at h
  rw [show p.length - l.length = 0 by omega, List.take_zero, List.append_nil] at h
  rw [List.prefix_iff_eq_take]
  exact h

/-- Removal of a dash-pattern distributes over a boundary behind which
the text is empty or starts with `'-'` (no occurrence can straddle the
boundary: its part inside `b` would put a `'-'` at a nonzero index of
the pattern). -/
theorem removeAll_append (p : List Char) (t : List Char)
    (hp : p = '-' :: t) (hnt : '-' ∉ t) (b : List Char)
    (hb : b = [] ∨ ∃ b', b = '-' :: b') :
    ∀ (n : Nat) (a : List Char), a.length ≤ n →
      removeAll p (a ++ b) = removeAll p a ++ removeAll p b := by
  have hpne : p ≠ [] := by rw [hp]; exact List.cons_ne_nil _ _
  have hplen : 1 ≤ p.length := List.length_pos.mpr hpne
  intro n
  induction n with
  | zero =>
    intro a ha
    have : a = [] := List.eq_nil_of_length_eq_zero (Nat.le_zero.mp ha)
    subst this
    rw [List.nil_append, removeAll_nil, List.nil_append]
  | succ n ih =>
    intro a ha
    cases a with
    | nil => rw [List.nil_append, removeAll_nil, List.nil_append]
    | cons c rest =>
      simp only [List.length_cons] at ha
      rw [List.cons_append, removeAll_cons p hpne c (rest ++ b),
        removeAll_cons p hpne c rest]
      by_cases hpre : p.isPrefixOf (c :: rest)
      · have hpre' : p <+: (c :: rest) := List.isPrefixOf_iff_prefix.mp hpre
        have hlep : p.length ≤ (c :: rest).length := hpre'.length_le
        have hpre2 : p.isPrefixOf (c :: (rest ++ b)) := by
          rw [List.isPrefixOf_iff_prefix]
          exact hpre'.trans (List.prefix_append _ _)
        rw [if_pos hpre, if_pos hpre2]
        rw [show (c :: (rest ++ b)) = (c :: rest) ++ b from rfl,
          List.drop_append_eq_append_drop]
        rw [show p.length - (c :: rest).length = 0 by
            simp only [List.length_cons]
            simp only [List.length_cons] at hlep
            omega,
          List.drop_zero]
        apply ih
        simp only [List.length_drop, List.length_cons]
        omega
      · by_cases hpre2 : p.isPrefixOf (c :: (rest ++ b))
        · exfalso
          have hpre2' : p <+: (c :: rest) ++ b := by
            rw [← List.isPrefixOf_iff_prefix]
            exact hpre2
          by_cases hle : p.length ≤ (c :: rest).length
          · exact hpre (List.isPrefixOf_iff_prefix.mpr
              (prefix_of_append_of_le p (c :: rest) b hpre2' hle))
          · push_neg at hle
            have hq : p = (c :: rest) ++ b.take (p.length - (c :: rest).length) := by
              rw [List.prefix_iff_eq_take] at hpre2'
              rw [List.take_append_eq_append_take,
                List.take_of_length_le (le_of_lt hle)] at hpre2'
              exact hpre2'
            rcases hb with rfl | ⟨b', rfl⟩
            · rw [List.take_nil, List.append_nil] at hq
              have := congrArg List.length hq
              simp only [List.length_cons] at this hle
              omega
            · obtain ⟨q', hq'⟩ :
                  ∃ q', ('-' :: b').take (p.length - (c :: rest).length) = '-' :: q' := by
                cases hkk : p.length - (c :: rest).length with
                | zero =>
                  exfalso
                  simp only [List.length_cons] at hkk hle
                  omega
                | succ m => exact ⟨b'.take m, by simp⟩
              have h2 : '-' :: t = c :: (rest ++ ('-' :: q')) := by
                conv_lhs => rw [← hp, hq]
                rw [hq', List.cons_append]
              have h3 : t = rest ++ ('-' :: q') := (List.cons.inj h2).2
              apply hnt
              rw [h3]
              simp
        · rw [if_neg hpre, if_neg hpre2, List.cons_append]
          congr 1
          exact ih rest (by omega)

/-- Each cosmetic suffix starts with `'-'` and has no further `'-'`. -/
theorem token_dash (p : List Char) (hp : p ∈ suffixTokens) :
    ∃ t, p = '-' :: t ∧ '-' ∉ t := by
  simp only [suffixTokens, List.mem_cons, List.not_mem_nil, or_false] at hp
  rcases hp with rfl | rfl | rfl | rfl | rfl
  · exact ⟨"fund".toList, rfl, by decide⟩
  · exact ⟨"direct".toList, rfl, by decide⟩
  · exact ⟨"growth".toList, rfl, by decide⟩
  · exact ⟨"plan".toList, rfl, by decide⟩
  · exact ⟨"scheme".toList, rfl, by decide⟩

/-- No cosmetic suffix occurs inside a different one; removal on a
single token either erases it (same token) or leaves it unchanged. -/
theorem removeAll_token (p tok : List Char)
    (hp : p ∈ suffixTokens) (ht : tok ∈ suffixTokens) :
    removeAll p tok = if tok = p then [] else tok := by
  fin_cases hp <;> fin_cases ht <;> decide

/-- A block of suffix tokens is empty or starts with `'-'`. -/
theorem join_toks_shape (toks : List (List Char))
    (ht : ∀ t ∈ toks, t ∈ suffixTokens) :
    toks.flatten = [] ∨ ∃ b', toks.flatten = '-' :: b' := by
  cases toks with
  | nil => exact Or.inl rfl
  | cons u us =>
    obtain ⟨tu, hu, _⟩ := token_dash u (ht u (List.mem_cons_self u us))
    right
    exact ⟨tu ++ us.flatten, by rw [List.flatten_cons, hu, List.cons_append]⟩

/-- Removing one suffix pattern from a block of suffix tokens removes
exactly the matching tokens. -/
theorem removeAll_join_toks (p : List Char) (hp : p ∈ suffixTokens) :
    ∀ (toks : List (List Char)), (∀ t ∈ toks, t ∈ suffixTokens) →
      removeAll p toks.flatten = (toks.filter (fun t => t ≠ p)).flatten := by
  intro toks
  induction toks with
  | nil =>
    intro _
    simp only [List.flatten_nil, List.filter_nil]
    exact removeAll_nil p
  | cons u us ih =>
    intro ht
    have hu : u ∈ suffixTokens := ht u (List.mem_cons_self u us)
    have hus : ∀ t ∈ us, t ∈ suffixTokens := fun t htt => ht t (List.mem_cons_of_mem u htt)
    obtain ⟨tp, hptp, hnp⟩ := token_dash p hp
    rw [List.flatten_cons]
    rw [removeAll_append p tp hptp hnp us.flatten (join_toks_shape us hus) u.length u
      (le_refl _)]
    rw [removeAll_token p u hp hu, ih hus]
    by_cases hup : u = p
    · simp [hup]
    · simp [hup]

/-- The sequential suffix-replacement loop distributes over a trailing
block of suffix tokens, eliminating exactly the tokens whose pattern
appears in the remaining pattern list. -/
theorem seqRemove_append_toks :
    ∀ (pats : List (List Char)), (∀ q ∈ pats, q ∈ suffixTokens) →
    ∀ (s : List Char) (toks : List (List Char)), (∀ t ∈ toks, t ∈ suffixTokens) →
      seqRemove pats (s ++ toks.flatten) =
        seqRemove pats s ++ (toks.filter (fun t => decide (t ∉ pats))).flatten := by
  intro pats
  induction pats with
  | nil =>
    intro _ s toks _
    simp only [seqRemove, List.foldl_nil]
    congr 1
    rw [List.filter_eq_self.mpr]
    intro t _
    simp
  | cons q qs ih =>
    intro hq s toks ht
    have hq0 : q ∈ suffixTokens := hq q (List.mem_cons_self q qs)
    have hqs : ∀ r ∈ qs, r ∈ suffixTokens := fun r hr => hq r (List.mem_cons_of_mem q hr)
    obtain ⟨tq, hqtq, hnq⟩ := token_dash q hq0
    have hstep : seqRemove (q :: qs) (s ++ toks.flatten) =
        seqRemove qs (removeAll q (s ++ toks.flatten)) := rfl
    rw [hstep,
      removeAll_append q tq hqtq hnq toks.flatten (join_toks_shape toks ht) s.length s
        (le_refl _),
      removeAll_join_toks q hq0 toks ht,
      ih hqs (removeAll q s) (toks.filter (fun t => t ≠ q))
        (fun t htt => ht t (List.mem_of_mem_filter htt))]
    have hfix : seqRemove (q :: qs) s = seqRemove qs (removeAll q s) := rfl
    rw [hfix, List.filter_filter]
    congr 1
    refine congrArg List.flatten (List.filter_congr ?_)
    intro t _
    by_cases h1 : t = q <;> by_cases h2 : t ∈ qs <;> simp [h1, h2, List.mem_cons]

/-- No token survives filtering against the full suffix list. -/
theorem filter_toks_all (toks : List (List Char))
    (ht : ∀ t ∈ toks, t ∈ suffixTokens) :
    toks.filter (fun t => decide (t ∉ suffixTokens)) = [] := by
  induction toks with
  | nil => rfl
  | cons u us ih =>
    have hu : u ∈ suffixTokens := ht u (List.mem_cons_self u us)
    rw [List.filter_cons]
    simp only [hu, not_true_eq_false, decide_False, Bool.false_eq_true, if_false]
    exact ih (fun t htt => ht t (List.mem_cons_of_mem u htt))

/-- `takeWhile` over an append whose first part wholly satisfies the
predicate. -/
theorem takeWhile_append_all (p : Char → Bool) :
    ∀ (a b : List Char), (∀ c ∈ a, p c = true) →
      (a ++ b).takeWhile p = a ++ b.takeWhile p := by
  intro a
  induction a with
  | nil => intro b _; rfl
  | cons c rest ih =>
    intro b ha
    rw [List.cons_append, List.takeWhile_cons, ha c (List.mem_cons_self c rest), if_pos rfl,
      ih b (fun d hd => ha d (List.mem_cons_of_mem c hd)), List.cons_append]

/-- `takeWhile` over an append that stops inside the first part. -/
theorem takeWhile_append_stop (p : Char → Bool) :
    ∀ (a b : List Char), (∃ c ∈ a, p c = false) →
      (a ++ b).takeWhile p = a.takeWhile p := by
  intro a
  induction a with
  | nil =>
    intro b h
    obtain ⟨c, hc, _⟩ := h
    exact absurd hc (List.not_mem_nil c)
  | cons c rest ih =>
    intro b h
    rw [List.cons_append, List.takeWhile_cons, List.takeWhile_cons]
    cases hpc : p c with
    | false => rfl
    | true =>
      obtain ⟨d, hd, hpd⟩ := h
      rcases List.mem_cons.mp hd with rfl | hd'
      · rw [hpc] at hpd; cases hpd
      · rw [ih b ⟨d, hd', hpd⟩]

/-- No `'?'` occurs in a suffix token. -/
theorem toks_no_question (toks : List (List Char))
    (ht : ∀ t ∈ toks, t ∈ suffixTokens) :
    ∀ c ∈ toks.flatten, (decide (c ≠ '?')) = true := by
  intro c hc
  rw [List.mem_flatten] at hc
  obtain ⟨l, hl, hcl⟩ := hc
  have hls := ht l hl
  simp only [suffixTokens, List.mem_cons, List.not_mem_nil, or_false] at hls
  rcases hls with rfl | rfl | rfl | rfl | rfl <;> fin_cases hcl <;> decide

/-- The slug computed by `normalize_link` from a link whose post-slug
part is `base ++ suffix tokens ++ query` depends only on `base`. -/
theorem normalize_link_shape (l base : List Char) (toks : List (List Char))
    (q : List Char)
    (ht : ∀ t ∈ toks, t ∈ suffixTokens)
    (hq : q = [] ∨ ∃ r, q = '?' :: r)
    (h : afterLast "mutual-funds/".toList l = base ++ toks.flatten ++ q) :
    normalize_link l = joinClean (seqRemove suffixTokens
      (List.takeWhile (fun c => c ≠ '?') base)) := by
  unfold normalize_link
  rw [h]
  by_cases hb : ∃ c ∈ base, (decide (c ≠ '?')) = false
  · rw [List.append_assoc, takeWhile_append_stop _ base _ hb]
  · push_neg at hb
    have hball : ∀ c ∈ base, (decide (c ≠ '?')) = true := by
      intro c hc
      cases h' : (decide (c ≠ '?')) with
      | false => exact absurd h' (hb c hc)
      | true => rfl
    have hqtake : q.takeWhile (fun c => c ≠ '?') = [] := by
      rcases hq with rfl | ⟨r, rfl⟩
      · rfl
      · rw [List.takeWhile_cons]
        simp
    rw [List.append_assoc, takeWhile_append_all _ base _ hball,
      takeWhile_append_all _ toks.flatten _ (toks_no_question toks ht),
      hqtake, List.append_nil,
      seqRemove_append_toks suffixTokens (fun p hp => hp) base toks ht,
      filter_toks_all toks ht]
    rw [show (([] : List (List Char)).flatten) = [] from rfl, List.append_nil,
      List.takeWhile_eq_self_iff.mpr hball]

/-- Two links whose post-`'mutual-funds/'` slugs share a base and differ
only by trailing cosmetic suffix tokens and/or a trailing query string
normalize identically. -/
theorem normalize_link_invariant (l₁ l₂ base : List Char)
    (toks₁ toks₂ : List (List Char)) (q₁ q₂ : List Char)
    (ht₁ : ∀ t ∈ toks₁, t ∈ suffixTokens) (ht₂ : ∀ t ∈ toks₂, t ∈ suffixTokens)
    (hq₁ : q₁ = [] ∨ ∃ r, q₁ = '?' :: r) (hq₂ : q₂ = [] ∨ ∃ r, q₂ = '?' :: r)
    (h₁ : afterLast "mutual-funds/".toList l₁ = base ++ toks₁.flatten ++ q₁)
    (h₂ : afterLast "mutual-funds/".toList l₂ = base ++ toks₂.flatten ++ q₂) :
    normalize_link l₁ = normalize_link l₂ := by
  rw [normalize_link_shape l₁ base toks₁ q₁ ht₁ hq₁ h₁,
    normalize_link_shape l₂ base toks₂ q₂ ht₂ hq₂ h₂]

/-- Unfolding equation for `addFund` (applied only at head position, so
that `foldl (addFund m)` stays intact in rewrites). -/
theorem addFund_eq (m : Nat) (st : List (List Char × List Char) × List Fund) (f : Fund) :
    addFund m st f =
      if m ≤ st.2.length then st
      else if fundKey f ∈ st.1 then st
      else (fundKey f :: st.1, st.2 ++ [f]) := rfl

/-- Once a key is in the seen set, the dedup fold never appends another
fund with that key. -/
theorem foldl_addFund_seen (m : Nat) (k : List Char × List Char) :
    ∀ (cards : List Fund) (st : List (List Char × List Char) × List Fund),
      k ∈ st.1 →
      ((cards.foldl (addFund m) st).2).filter (fun f => decide (fundKey f = k)) =
        st.2.filter (fun f => decide (fundKey f = k)) := by
  intro cards
  induction cards with
  | nil => intro st _; rfl
  | cons c cs ih =>
    intro st hk
    rw [List.foldl_cons]
    by_cases hfull : m ≤ st.2.length
    · rw [show addFund m st c = st from by rw [addFund_eq, if_pos hfull]]
      exact ih st hk
    · by_cases hseen : fundKey c ∈ st.1
      · rw [show addFund m st c = st from by rw [addFund_eq, if_neg hfull, if_pos hseen]]
        exact ih st hk
      · rw [show addFund m st c = (fundKey c :: st.1, st.2 ++ [c]) from by
          rw [addFund_eq, if_neg hfull, if_neg hseen]]
        have hck : fundKey c ≠ k := fun heq => hseen (heq ▸ hk)
        rw [ih (fundKey c :: st.1, st.2 ++ [c]) (List.mem_cons_of_mem _ hk)]
        simp only [List.filter_append]
        rw [show List.filter (fun f => decide (fundKey f = k)) [c] = [] from by simp [hck],
          List.append_nil]

/-- A key neither seen nor occurring in the stream stays unseen, and the
accumulator keeps no fund with that key beyond what it already had. -/
theorem foldl_addFund_notseen (m : Nat) (k : List Char × List Char) :
    ∀ (cards : List Fund) (st : List (List Char × List Char) × List Fund),
      k ∉ st.1 → (∀ c ∈ cards, fundKey c ≠ k) →
      k ∉ (cards.foldl (addFund m) st).1 ∧
      ((cards.foldl (addFund m) st).2).filter (fun f => decide (fundKey f = k)) =
        st.2.filter (fun f => decide (fundKey f = k)) := by
  intro cards
  induction cards with
  | nil => intro st h _; exact ⟨h, rfl⟩
  | cons c cs ih =>
    intro st hk hc
    rw [List.foldl_cons]
    have hck : fundKey c ≠ k := hc c (List.mem_cons_self c cs)
    have hcs : ∀ d ∈ cs, fundKey d ≠ k := fun d hd => hc d (List.mem_cons_of_mem c hd)
    by_cases hfull : m ≤ st.2.length
    · rw [show addFund m st c = st from by rw [addFund_eq, if_pos hfull]]
      exact ih st hk hcs
    · by_cases hseen : fundKey c ∈ st.1
      · rw [show addFund m st c = st from by rw [addFund_eq, if_neg hfull, if_pos hseen]]
        exact ih st hk hcs
      · rw [show addFund m st c = (fundKey c :: st.1, st.2 ++ [c]) from by
          rw [addFund_eq, if_neg hfull, if_neg hseen]]
        have h1 : k ∉ (fundKey c :: st.1) := by
          intro hmem
          rcases List.mem_cons.mp hmem with heq | hmem'
          · exact hck heq.symm
          · exact hk hmem'
        obtain ⟨ha, hb⟩ := ih (fundKey c :: st.1, st.2 ++ [c]) h1 hcs
        refine ⟨ha, ?_⟩
        rw [hb]
        simp only [List.filter_append]
        rw [show List.filter (fun f => decide (fundKey f = k)) [c] = [] from by simp [hck],
          List.append_nil]

/-- The dedup fold appends at most one fund per processed card. -/
theorem foldl_addFund_len (m : Nat) :
    ∀ (cards : List Fund) (st : List (List Char × List Char) × List Fund),
      ((cards.foldl (addFund m) st).2).length ≤ st.2.length + cards.length := by
  intro cards
  induction cards with
  | nil => intro st; simp
  | cons c cs ih =>
    intro st
    rw [List.foldl_cons]
    by_cases hfull : m ≤ st.2.length
    · rw [show addFund m st c = st from by rw [addFund_eq, if_pos hfull]]
      have := ih st
      simp only [List.length_cons]
      omega
    · by_cases hseen : fundKey c ∈ st.1
      · rw [show addFund m st c = st from by rw [addFund_eq, if_neg hfull, if_pos hseen]]
        have := ih st
        simp only [List.length_cons]
        omega
      · rw [show addFund m st c = (fundKey c :: st.1, st.2 ++ [c]) from by
          rw [addFund_eq, if_neg hfull, if_neg hseen]]
        have := ih (fundKey c :: st.1, st.2 ++ [c])
        simp only [List.length_append, List.length_cons, List.length_nil] at this ⊢
        omega

/-- C7 (amended): for two listing entries with the same trimmed display
name whose links' post-`'mutual-funds/'` slugs share a base and differ
only by trailing cosmetic suffix tokens and/or a trailing query string,
the discovery dedup emits exactly one fund with that identity — the
first one seen — provided the stream fits the fund quota; the later
duplicate is skipped.  (The proviso that the slug is taken after the
LAST `'mutual-funds/'` occurrence is forced by the counterexample.) -/
theorem dedup_keeps_first (maxFunds : Nat) (pref mid suff : List Fund)
    (c1 c2 : Fund) (base : List Char)
    (toks₁ toks₂ : List (List Char)) (q₁ q₂ : List Char)
    (hlen : pref.length + mid.length + suff.length + 2 ≤ maxFunds)
    (hfirst : ∀ c ∈ pref, fundKey c ≠ fundKey c1)
    (hname : trim c2.name = trim c1.name)
    (ht₁ : ∀ t ∈ toks₁, t ∈ suffixTokens) (ht₂ : ∀ t ∈ toks₂, t ∈ suffixTokens)
    (hq₁ : q₁ = [] ∨ ∃ r, q₁ = '?' :: r) (hq₂ : q₂ = [] ∨ ∃ r, q₂ = '?' :: r)
    (h₁ : afterLast "mutual-funds/".toList c1.link = base ++ toks₁.flatten ++ q₁)
    (h₂ : afterLast "mutual-funds/".toList c2.link = base ++ toks₂.flatten ++ q₂) :
    (dedupeCards maxFunds (pref ++ c1 :: (mid ++ c2 :: suff))).filter
      (fun f => decide (fundKey f = fundKey c1)) = [c1] := by
  have hkey : fundKey c2 = fundKey c1 := by
    unfold fundKey
    rw [hname,
      normalize_link_invariant c2.link c1.link base toks₂ toks₁ q₂ q₁ ht₂ ht₁ hq₂ hq₁ h₂ h₁]
  unfold dedupeCards
  rw [List.foldl_append, List.foldl_cons]
  obtain ⟨hnotseen, hfilter⟩ :=
    foldl_addFund_notseen maxFunds (fundKey c1) pref ([], [])
      (List.not_mem_nil _) hfirst
  have hlenp : ((pref.foldl (addFund maxFunds) ([], [])).2).length ≤ pref.length := by
    have := foldl_addFund_len maxFunds pref ([], [])
    simpa using this
  rw [show addFund maxFunds (pref.foldl (addFund maxFunds) ([], [])) c1 =
      (fundKey c1 :: (pref.foldl (addFund maxFunds) ([], [])).1,
        (pref.foldl (addFund maxFunds) ([], [])).2 ++ [c1]) from by
    rw [addFund_eq,
      if_neg (by omega : ¬ maxFunds ≤ ((pref.foldl (addFund maxFunds) ([], [])).2).length),
      if_neg hnotseen]]
  rw [foldl_addFund_seen maxFunds (fundKey c1) (mid ++ c2 :: suff) _
      (List.mem_cons_self _ _)]
  simp only [List.filter_append, hfilter]
  simp

/-- First listing entry of the witness pair: suffix-decorated link. -/
def dupFund1 : Fund :=
  { name := "Fund A ".toList, risk := "High".toList, type_ := "Equity".toList,
    returns := ["12%".toList, "14%".toList, "11%".toList],
    link := "https://groww.in/mutual-funds/fund-a-direct-growth".toList }

/-- Second listing entry of the witness pair: same name (up to
trimming), same slug, query-decorated link. -/
def dupFund2 : Fund :=
  { name := " Fund A".toList, risk := "High".toList, type_ := "Equity".toList,
    returns := ["12%".toList, "14%".toList, "11%".toList],
    link := "https://groww.in/mutual-funds/fund-a?utm=1".toList }

/-- Witness for C7-as-amended at the spec's own deduplication example:
`fund-a-direct-growth` vs `fund-a?utm=1` collapse to one entry, the
first seen. -/
theorem dedup_keeps_first_witness :
    (dedupeCards 200 [dupFund1, dupFund2]).filter
      (fun f => decide (fundKey f = fundKey dupFund1)) = [dupFund1] := by
  have h := dedup_keeps_first 200 [] [] [] dupFund1 dupFund2 "fund-a".toList
    ["-direct".toList, "-growth".toList] [] [] "?utm=1".toList
    (by simp)
    (fun c hc => absurd hc (List.not_mem_nil c))
    (by decide)
    (by decide)
    (fun t ht => absurd ht (List.not_mem_nil t))
    (Or.inl rfl)
    (Or.inr ⟨"utm=1".toList, rfl⟩)
    (by decide)
    (by decide)
  simpa using h

/-- A pair of listing entries differing only by a trailing query string
— one that happens to contain `'mutual-funds/'`. -/
def qryFund1 : Fund :=
  { name := "Fund A".toList, risk := "High".toList, type_ := "Equity".toList,
    returns := [], link := "https://groww.in/mutual-funds/fund-a".toList }

/-- See `qryFund1`: same name, link extended by a query string only. -/
def qryFund2 : Fund :=
  { name := "Fund A".toList, risk := "High".toList, type_ := "Equity".toList,
    returns := [],
    link := "https://groww.in/mutual-funds/fund-a?x=mutual-funds/zzz".toList }

/-- C7 counterexample: the two entries differ only by a trailing query
string (and have equal trimmed names), yet discovery emits BOTH —
`normalize_link` takes the slug after the LAST `'mutual-funds/'`
occurrence, which here lies inside the query — refuting "yields exactly
one FundSummary" as universally stated. -/
theorem query_link_defeats_dedup :
    qryFund2.link = qryFund1.link ++ "?x=mutual-funds/zzz".toList ∧
    trim qryFund2.name = trim qryFund1.name ∧
    dedupeCards 200 [qryFund1, qryFund2] = [qryFund1, qryFund2] := by
  refine ⟨by decide, by decide, by decide⟩
